import Mathlib

/-!
Verification of the streaming-videos cache-placement program (`videos.py`).

The program parses a line-oriented dataset, builds a MILP model
(decision variables `cached[c,v]` and `served[r,c]`, a linear objective,
capacity / linkage / single-assignment constraints), hands it to an external
solver, and extracts a cache-content placement from the solved values.

Shallow embedding conventions:
* Python integers are `Int`; loop bounds `range(n)` become `intRange n`
  (empty for non-positive `n`, as in Python).
* An input file is modelled as a list of already-tokenized integer lines
  (`List (List Int)`); a Python runtime error while reading
  (`IndexError` on a missing line, `ValueError` on unpacking a line of the
  wrong arity) becomes `Except.error`.
* Python `dict`s keyed by integers become insertion-ordered association
  lists with `dict`-assignment semantics (`dictInsert`).
* The Gurobi model is represented by the lists of variable keys it creates
  and a list of `Constr` values; the linear objective is the list of its
  terms in creation order.
* Solved variable values are integers (Gurobi binaries take the values
  0 / 1); the extractor's floating-point test `var.X > 0.5` is transcribed
  over `Int` as `1 < 2 * value`.
-/

/-- One parsed endpoint: Python dict with keys `id`, `Ld`, `connections`
(`connections` maps a cache id to the link latency). -/
structure Endpoint where
  id : Int
  Ld : Int
  connections : List (Int × Int)
deriving DecidableEq

instance : Inhabited Endpoint := ⟨⟨0, 0, []⟩⟩

/-- One parsed request: Python dict with keys `id`, `video`, `endpoint`,
`count`. -/
structure Request where
  id : Int
  video : Int
  endpoint : Int
  count : Int
deriving DecidableEq

/-- The value returned by `read_input`: header numbers, the video sizes,
the endpoints and the requests. -/
structure Dataset where
  V : Int
  E : Int
  R : Int
  C : Int
  X : Int
  video_sizes : List Int
  endpoints : List Endpoint
  requests : List Request
deriving DecidableEq

/-- Fetch line `i`; a missing line is Python's `IndexError`. -/
def getLine (lines : List (List Int)) (i : Nat) : Except String (List Int) :=
  match lines[i]? with
  | some l => Except.ok l
  | none => Except.error "IndexError: list index out of range"

/-- `a, b = map(int, line.split())` — exactly two fields or `ValueError`. -/
def unpack2 (l : List Int) : Except String (Int × Int) :=
  match l with
  | [a, b] => Except.ok (a, b)
  | _ => Except.error "ValueError: unpacking expects 2 values"

/-- `a, b, c = map(int, line.split())`. -/
def unpack3 (l : List Int) : Except String (Int × Int × Int) :=
  match l with
  | [a, b, c] => Except.ok (a, b, c)
  | _ => Except.error "ValueError: unpacking expects 3 values"

/-- `V, E, R, C, X = map(int, line.split())`. -/
def unpack5 (l : List Int) : Except String (Int × Int × Int × Int × Int) :=
  match l with
  | [a, b, c, d, e] => Except.ok (a, b, c, d, e)
  | _ => Except.error "ValueError: unpacking expects 5 values"

/-- Python `dict` assignment `d[key] = val`: overwrite in place if the key
is present, otherwise append. -/
def dictInsert (d : List (Int × Int)) (key val : Int) : List (Int × Int) :=
  match d with
  | [] => [(key, val)]
  | (k, v) :: rest =>
    if k = key then (key, val) :: rest else (k, v) :: dictInsert rest key val

/-- The inner loop of `read_input` reading `K` `cache_id latency` lines
into the `cache_connections` dict, returning it with the next line index. -/
def readConnections : Nat → List (List Int) → Nat → List (Int × Int) →
    Except String (List (Int × Int) × Nat)
  | 0, _, i, acc => Except.ok (acc, i)
  | k + 1, lines, i, acc => do
    let line ← getLine lines i
    let (c_id, latency) ← unpack2 line
    readConnections k lines (i + 1) (dictInsert acc c_id latency)

/-- The loop of `read_input` over the `E` endpoints. -/
def readEndpoints : Nat → Int → List (List Int) → Nat →
    Except String (List Endpoint × Nat)
  | 0, _, _, i => Except.ok ([], i)
  | e + 1, idx, lines, i => do
    let line ← getLine lines i
    let (ld, k) ← unpack2 line
    let (conns, i') ← readConnections k.toNat lines (i + 1) []
    let (rest, i'') ← readEndpoints e (idx + 1) lines i'
    Except.ok (⟨idx, ld, conns⟩ :: rest, i'')

/-- The loop of `read_input` over the `R` requests. -/
def readRequests : Nat → Int → List (List Int) → Nat →
    Except String (List Request × Nat)
  | 0, _, _, i => Except.ok ([], i)
  | r + 1, idx, lines, i => do
    let line ← getLine lines i
    let (v_id, e_id, n_count) ← unpack3 line
    let (rest, i') ← readRequests r (idx + 1) lines (i + 1)
    Except.ok (⟨idx, v_id, e_id, n_count⟩ :: rest, i')

/-- `read_input`: header, video sizes, endpoints, requests.  The code
performs no validation beyond what Python raises by itself: surplus
trailing lines are ignored and referenced indices are not range-checked. -/
def read_input (lines : List (List Int)) : Except String Dataset := do
  let header ← getLine lines 0
  let (v, e, r, c, x) ← unpack5 header
  let sizes ← getLine lines 1
  let (eps, i) ← readEndpoints e.toNat 0 lines 2
  let (reqs, _) ← readRequests r.toNat 0 lines i
  Except.ok ⟨v, e, r, c, x, sizes, eps, reqs⟩

/-- Python `range(n)` as a list of integers (empty for `n ≤ 0`). -/
def intRange (n : Int) : List Int := (List.range n.toNat).map fun (m : Nat) => (m : Int)

/-- `video_sizes[v]`; only ever applied to `v` drawn from `intRange V`,
hence non-negative. -/
def size_at (d : Dataset) (v : Int) : Int := d.video_sizes.getD v.toNat 0

/-- `endpoints[e_id]`; only applied to in-range endpoint ids in the claims
(out-of-range access would raise in Python). -/
def reqEndpoint (d : Dataset) (req : Request) : Endpoint :=
  d.endpoints.getD req.endpoint.toNat default

/-- Keys of the `cached` dict: the double loop
`for c in range(C): for v in range(V): if video_sizes[v] <= X`. -/
def buildCachedKeys (d : Dataset) : List (Int × Int) :=
  (intRange d.C).flatMap fun c =>
    (intRange d.V).filterMap fun v =>
      if size_at d v ≤ d.X then some (c, v) else none

/-- The connections of a request's endpoint that pass `latency < Ld`. -/
def eligibleConns (d : Dataset) (req : Request) : List (Int × Int) :=
  (reqEndpoint d req).connections.filter fun p =>
    decide (p.2 < (reqEndpoint d req).Ld)

/-- Keys of the `served` variables created while processing one request. -/
def servedKeysFor (d : Dataset) (req : Request) : List (Int × Int) :=
  (eligibleConns d req).map fun p => (req.id, p.1)

/-- Keys of the `served` dict after the full request loop. -/
def servedKeys (d : Dataset) : List (Int × Int) :=
  d.requests.flatMap fun req => servedKeysFor d req

/-- `saving = (Ld - latency) * count`. -/
def saving (d : Dataset) (req : Request) (latency : Int) : Int :=
  ((reqEndpoint d req).Ld - latency) * req.count

/-- The objective terms `saving * served[r,c]` added for one request. -/
def objTermsFor (d : Dataset) (req : Request) : List ((Int × Int) × Int) :=
  (eligibleConns d req).map fun p => ((req.id, p.1), saving d req p.2)

/-- All terms of `obj_expr` in creation order. -/
def objTerms (d : Dataset) : List ((Int × Int) × Int) :=
  d.requests.flatMap fun req => objTermsFor d req

/-- Total objective coefficient of the variable `served[k]`: the sum of
all terms added for that key. -/
def objCoeff (d : Dataset) (k : Int × Int) : Int :=
  (((objTerms d).filter fun t => decide (t.1 = k)).map fun t => t.2).sum

/-- A constraint of the Gurobi model. -/
inductive Constr where
  /-- `served[s] <= cached[k]` -/
  | link : (Int × Int) → (Int × Int) → Constr
  /-- `served[s] == 0` -/
  | zero : (Int × Int) → Constr
  /-- capacity of cache `c` -/
  | cap : Int → Constr
  /-- sum of the listed served variables `<= 1` -/
  | assign : Int → List (Int × Int) → Constr
deriving DecidableEq

/-- The linkage constraints added while processing one request:
`served <= cached` when the caching variable exists, else `served == 0`. -/
def linkConstrsFor (d : Dataset) (req : Request) : List Constr :=
  (eligibleConns d req).map fun p =>
    if (p.1, req.video) ∈ buildCachedKeys d then
      Constr.link (req.id, p.1) (p.1, req.video)
    else
      Constr.zero (req.id, p.1)

/-- One capacity constraint per cache in `range(C)`. -/
def capConstrs (d : Dataset) : List Constr :=
  (intRange d.C).map Constr.cap

/-- `vars_for_req`: the served variables collected for the assignment
constraint of one request (connected caches filtered by membership in the
global `served` dict). -/
def assignVarsFor (d : Dataset) (req : Request) : List (Int × Int) :=
  (reqEndpoint d req).connections.filterMap fun p =>
    if (req.id, p.1) ∈ servedKeys d then some (req.id, p.1) else none

/-- The single-assignment constraints: one per request whose variable list
is non-empty; requests with no eligible variable are skipped. -/
def assignConstrs (d : Dataset) : List Constr :=
  d.requests.filterMap fun req =>
    if (assignVarsFor d req).isEmpty then none
    else some (Constr.assign req.id (assignVarsFor d req))

/-- Every constraint `solve_videos` adds to the model, in program order:
linkage constraints during the request loop, then capacities, then
single-assignment constraints. -/
def modelConstrs (d : Dataset) : List Constr :=
  (d.requests.flatMap fun req => linkConstrsFor d req) ++
    capConstrs d ++ assignConstrs d

/-- Left-hand side of the capacity constraint of cache `c`:
`quicksum(video_sizes[v] * cached[c,v] for v in range(V) if (c,v) in cached)`
evaluated at the values `σc`. -/
def capSum (d : Dataset) (σc : Int × Int → Int) (c : Int) : Int :=
  (((intRange d.V).filter fun v => decide ((c, v) ∈ buildCachedKeys d)).map
    fun v => size_at d v * σc (c, v)).sum

/-- Whether one constraint holds at the values `σc` (cached variables) and
`σs` (served variables). -/
def constrHolds (d : Dataset) (σc σs : Int × Int → Int) : Constr → Bool
  | Constr.link s k => decide (σs s ≤ σc k)
  | Constr.zero s => decide (σs s = 0)
  | Constr.cap c => decide (capSum d σc c ≤ d.X)
  | Constr.assign _ ks => decide (((ks.map σs).sum) ≤ 1)

/-- Whether values satisfy every constraint of the built model. -/
def feasibleB (d : Dataset) (σc σs : Int × Int → Int) : Bool :=
  (modelConstrs d).all fun co => constrHolds d σc σs co

/-- `videos_in_cache` for one cache `c`: the videos in `range(V)` whose
`cached` variable exists and has solved value above one half. -/
def storedVideos (d : Dataset) (σc : Int × Int → Int) (c : Int) : List Int :=
  (intRange d.V).filter fun v =>
    decide ((c, v) ∈ buildCachedKeys d) && decide (1 < 2 * σc (c, v))

/-- `generate_output`: for each cache in `range(C)` its stored videos;
caches with an empty list are dropped. -/
def generate_output (d : Dataset) (σc : Int × Int → Int) :
    List (Int × List Int) :=
  (intRange d.C).filterMap fun c =>
    if storedVideos d σc c = [] then none else some (c, storedVideos d σc c)

/-- The lines written to `videos.out`: first the number of non-empty
caches, then one line `c v1 v2 ...` per non-empty cache. -/
def videosOutLines (d : Dataset) (σc : Int × Int → Int) : List (List Int) :=
  [((generate_output d σc).length : Int)] ::
    (generate_output d σc).map fun e => e.1 :: e.2

/-- Observable outcome of one run of the `__main__` block. -/
structure RunResult where
  exitCode : Nat
  readAttempted : Bool
  wroteVideosOut : Bool
deriving DecidableEq

/-- The `__main__` dispatch: exit 1 before any read when the argument is
missing or the file does not exist; otherwise solve and return normally
(exit 0), writing `videos.out` exactly when the solver reports at least
one solution. -/
def mainRun (argc : Nat) (fileExists : Bool) (solCount : Nat) : RunResult :=
  if argc < 2 then ⟨1, false, false⟩
  else if fileExists = false then ⟨1, false, false⟩
  else ⟨0, true, decide (0 < solCount)⟩

/-! ### Concrete datasets used as witnesses and counterexamples -/

/-- The worked scenario of the spec: one video of size 5, capacity 10,
`Ld = 100`, one connection of latency 10, one request of count 1. -/
def ex1 : Dataset :=
  ⟨1, 1, 1, 1, 10, [5], [⟨0, 100, [(0, 10)]⟩], [⟨0, 0, 0, 1⟩]⟩

/-- A dataset whose single video (size 20) exceeds the capacity 10, with a
beneficial connection, so a served variable exists without a cached one. -/
def ex2 : Dataset :=
  ⟨1, 1, 1, 1, 10, [20], [⟨0, 100, [(0, 1)]⟩], [⟨0, 0, 0, 5⟩]⟩

/-- Like `ex1` but the request has demand count 0, so the single served
variable gets objective coefficient 0. -/
def ex6 : Dataset :=
  ⟨1, 1, 1, 1, 10, [5], [⟨0, 100, [(0, 10)]⟩], [⟨0, 0, 0, 0⟩]⟩

/-- An input whose endpoint references cache 5 although only `C = 1`
caches are declared. -/
def ex8lines : List (List Int) := [[1, 1, 1, 1, 10], [5], [100, 1], [5, 1], [0, 0, 1]]

/-- The dataset `read_input` returns for `ex8lines` — it succeeds, keeping
the out-of-range cache reference. -/
def ex8data : Dataset :=
  ⟨1, 1, 1, 1, 10, [5], [⟨0, 100, [(5, 1)]⟩], [⟨0, 0, 0, 1⟩]⟩

/-- An input whose endpoint is connected both to the out-of-range cache 7
and to the valid cache 0. -/
def ex10lines : List (List Int) :=
  [[1, 1, 1, 1, 10], [5], [100, 2], [7, 1], [0, 10], [0, 0, 3]]

/-- The dataset `read_input` returns for `ex10lines`. -/
def ex10data : Dataset :=
  ⟨1, 1, 1, 1, 10, [5], [⟨0, 100, [(7, 1), (0, 10)]⟩], [⟨0, 0, 0, 3⟩]⟩

/-! ### Basic facts about the embedding -/

theorem mem_intRange {n x : Int} : x ∈ intRange n ↔ 0 ≤ x ∧ x < n := by
  simp only [intRange, List.mem_map, List.mem_range]
  constructor
  · rintro ⟨m, hm, rfl⟩
    omega
  · rintro ⟨h0, h1⟩
    exact ⟨x.toNat, by omega, by omega⟩

theorem pairwise_lt_intRange (n : Int) :
    List.Pairwise (fun a b => a < b) (intRange n) := by
  unfold intRange
  rw [List.pairwise_map]
  exact (List.pairwise_lt_range n.toNat).imp fun h => by exact_mod_cast h

theorem nodup_intRange (n : Int) : (intRange n).Nodup :=
  (List.nodup_range n.toNat).map fun a b h => by exact_mod_cast h

/-- A caching variable exists exactly for an in-range (cache, video) pair
whose video fits the capacity. -/
theorem mem_buildCachedKeys {d : Dataset} {c v : Int} :
    (c, v) ∈ buildCachedKeys d ↔
      (0 ≤ c ∧ c < d.C) ∧ (0 ≤ v ∧ v < d.V) ∧ size_at d v ≤ d.X := by
  simp only [buildCachedKeys, List.mem_flatMap, List.mem_filterMap, mem_intRange]
  constructor
  · rintro ⟨c', hc', v', hv', h⟩
    by_cases hs : size_at d v' ≤ d.X
    · rw [if_pos hs, Option.some.injEq, Prod.mk.injEq] at h
      obtain ⟨rfl, rfl⟩ := h
      exact ⟨hc', hv', hs⟩
    · rw [if_neg hs] at h
      exact absurd h (by simp)
  · rintro ⟨hc, hv, hs⟩
    exact ⟨c, hc, v, hv, if_pos hs⟩

/-- Membership in the served keys created for one request. -/
theorem mem_servedKeysFor {d : Dataset} {req : Request} {k : Int × Int} :
    k ∈ servedKeysFor d req ↔
      k.1 = req.id ∧ ∃ lat, (k.2, lat) ∈ (reqEndpoint d req).connections ∧
        lat < (reqEndpoint d req).Ld := by
  obtain ⟨k1, k2⟩ := k
  simp only [servedKeysFor, eligibleConns, List.mem_map, List.mem_filter,
    decide_eq_true_eq]
  constructor
  · rintro ⟨⟨c', lat⟩, ⟨hm, hl⟩, heq⟩
    rw [Prod.mk.injEq] at heq
    obtain ⟨rfl, rfl⟩ := heq
    exact ⟨rfl, lat, hm, hl⟩
  · rintro ⟨rfl, lat, hm, hl⟩
    exact ⟨(k2, lat), ⟨hm, hl⟩, rfl⟩

/-- Every objective term created for a request carries that request's id
in its key. -/
theorem objTermsFor_key {d : Dataset} {req : Request} {t : (Int × Int) × Int}
    (h : t ∈ objTermsFor d req) : t.1.1 = req.id := by
  obtain ⟨p, _, rfl⟩ := List.mem_map.mp h
  rfl

/-- A linkage-loop constraint is in the full model. -/
theorem linkConstrsFor_subset {d : Dataset} {req : Request} {co : Constr}
    (hreq : req ∈ d.requests) (hco : co ∈ linkConstrsFor d req) :
    co ∈ modelConstrs d := by
  have h : co ∈ d.requests.flatMap fun q => linkConstrsFor d q :=
    List.mem_flatMap.mpr ⟨req, hreq, hco⟩
  simp [modelConstrs, List.mem_append, h]

/-- Every in-range cache gets its capacity constraint. -/
theorem cap_mem_modelConstrs {d : Dataset} {c : Int} (h0 : 0 ≤ c)
    (h1 : c < d.C) : Constr.cap c ∈ modelConstrs d := by
  have h : Constr.cap c ∈ capConstrs d :=
    List.mem_map_of_mem Constr.cap (mem_intRange.mpr ⟨h0, h1⟩)
  simp [modelConstrs, List.mem_append, h]

/-- If the caching variable for the requested video is absent, the loop
adds `served = 0` to the model. -/
theorem zero_constr_mem {d : Dataset} {req : Request} (hreq : req ∈ d.requests)
    {c lat : Int} (hconn : (c, lat) ∈ (reqEndpoint d req).connections)
    (hlat : lat < (reqEndpoint d req).Ld)
    (hnc : (c, req.video) ∉ buildCachedKeys d) :
    Constr.zero (req.id, c) ∈ modelConstrs d := by
  apply linkConstrsFor_subset hreq
  refine List.mem_map.mpr ⟨(c, lat), ?_, ?_⟩
  · exact List.mem_filter.mpr ⟨hconn, decide_eq_true hlat⟩
  · exact if_neg hnc

/-- If the caching variable for the requested video exists, the loop adds
`served ≤ cached` to the model. -/
theorem link_constr_mem {d : Dataset} {req : Request} (hreq : req ∈ d.requests)
    {c lat : Int} (hconn : (c, lat) ∈ (reqEndpoint d req).connections)
    (hlat : lat < (reqEndpoint d req).Ld)
    (hc : (c, req.video) ∈ buildCachedKeys d) :
    Constr.link (req.id, c) (c, req.video) ∈ modelConstrs d := by
  apply linkConstrsFor_subset hreq
  refine List.mem_map.mpr ⟨(c, lat), ?_, ?_⟩
  · exact List.mem_filter.mpr ⟨hconn, decide_eq_true hlat⟩
  · exact if_pos hc

/-! ### List helper lemmas -/

theorem length_filterMap_eq_countP {α β : Type} (f : α → Option β) :
    ∀ l : List α, (l.filterMap f).length = l.countP fun a => (f a).isSome
  | [] => rfl
  | a :: l => by
    rw [List.filterMap_cons, List.countP_cons]
    cases hfa : f a with
    | none => simp [hfa, length_filterMap_eq_countP f l]
    | some b => simp [hfa, length_filterMap_eq_countP f l]

theorem map_filter_eq_filterMap {α β : Type} (f : α → β) (q : α → Bool) :
    ∀ l : List α, (l.filter q).map f =
      l.filterMap fun a => if q a then some (f a) else none
  | [] => rfl
  | a :: l => by
    rw [List.filter_cons, List.filterMap_cons]
    by_cases hq : q a
    · simp only [hq, if_true, List.map_cons, map_filter_eq_filterMap f q l]
    · simp only [hq, if_false, Bool.false_eq_true, map_filter_eq_filterMap f q l]

/-- In an association list with distinct keys, filtering by a present key
conjoined with any predicate that its entry satisfies yields exactly that
entry. -/
theorem filter_key_and_singleton :
    ∀ (l : List (Int × Int)) (c lat : Int) (q : Int × Int → Bool),
      (l.map Prod.fst).Nodup → (c, lat) ∈ l → q (c, lat) = true →
      l.filter (fun p => decide (p.1 = c) && q p) = [(c, lat)]
  | [], _, _, _, _, h, _ => absurd h (List.not_mem_nil _)
  | (k, w) :: rest, c, lat, q, hnd, hmem, hq => by
    rw [List.map_cons, List.nodup_cons] at hnd
    rw [List.filter_cons]
    rcases List.mem_cons.mp hmem with heq | hrest
    · rw [Prod.mk.injEq] at heq
      obtain ⟨rfl, rfl⟩ := heq
      have hnil : rest.filter (fun p => decide (p.1 = c) && q p) = [] := by
        refine List.filter_eq_nil_iff.mpr fun p hp hcond => hnd.1 ?_
        have hpc : p.1 = c := by
          rcases Bool.and_eq_true_iff.mp hcond with ⟨h1, -⟩
          exact of_decide_eq_true h1
        exact List.mem_map.mpr ⟨p, hp, hpc⟩
      simp [hnil, hq]
    · have hkc : k ≠ c := by
        intro h
        subst h
        exact hnd.1 (List.mem_map.mpr ⟨(k, lat), hrest, rfl⟩)
      rw [if_neg (by simp [hkc])]
      exact filter_key_and_singleton rest c lat q hnd.2 hrest hq

/-- In an association list with distinct keys the value of a present key
is unique. -/
theorem assoc_value_unique {l : List (Int × Int)} {c a b : Int}
    (hnd : (l.map Prod.fst).Nodup) (ha : (c, a) ∈ l) (hb : (c, b) ∈ l) :
    a = b := by
  have h := List.inj_on_of_nodup_map hnd ha hb rfl
  exact congrArg Prod.snd h

/-! ### Facts about the placement extractor -/

/-- A video is listed for cache `c` iff its caching variable exists and
its solved value is above one half. -/
theorem mem_storedVideos {d : Dataset} {σc : Int × Int → Int} {c v : Int} :
    v ∈ storedVideos d σc c ↔
      (c, v) ∈ buildCachedKeys d ∧ 1 < 2 * σc (c, v) := by
  unfold storedVideos
  rw [List.mem_filter]
  constructor
  · rintro ⟨-, h⟩
    simpa using h
  · rintro ⟨h1, h2⟩
    refine ⟨mem_intRange.mpr ?_, by simp [h1, h2]⟩
    exact (mem_buildCachedKeys.mp h1).2.1

/-- Characterisation of the entries of `generate_output`. -/
theorem mem_generate_output {d : Dataset} {σc : Int × Int → Int} {c : Int}
    {vids : List Int} :
    (c, vids) ∈ generate_output d σc ↔
      (0 ≤ c ∧ c < d.C) ∧ vids = storedVideos d σc c ∧ vids ≠ [] := by
  unfold generate_output
  rw [List.mem_filterMap]
  constructor
  · rintro ⟨c', hc', h⟩
    by_cases he : storedVideos d σc c' = []
    · rw [if_pos he] at h
      exact absurd h (by simp)
    · rw [if_neg he, Option.some.injEq, Prod.mk.injEq] at h
      obtain ⟨rfl, rfl⟩ := h
      exact ⟨mem_intRange.mp hc', rfl, he⟩
  · rintro ⟨hc, rfl, hne⟩
    exact ⟨c, mem_intRange.mpr hc, if_neg hne⟩

/-- The sum of the sizes of the videos the extractor lists for a cache
equals the capacity left-hand side, provided the caching values are
binary. -/
theorem stored_sum_eq_capSum (d : Dataset) (σc : Int × Int → Int) (c : Int)
    (hbin : ∀ k ∈ buildCachedKeys d, σc k = 0 ∨ σc k = 1) :
    ((storedVideos d σc c).map fun v => size_at d v).sum = capSum d σc c := by
  unfold storedVideos capSum
  induction intRange d.V with
  | nil => rfl
  | cons a l ih =>
    rw [List.filter_cons, List.filter_cons]
    by_cases hm : (c, a) ∈ buildCachedKeys d
    · rcases hbin (c, a) hm with h0 | h1
      · simp [hm, h0, ih]
      · simp [hm, h1, ih]
    · simp [hm, ih]

/-! ### Claim theorems -/

/-- C1: for every well-formed dataset the model carries, for every cache
index in `0..C-1`, a capacity constraint whose left-hand side sums
`size(v) * cached[c,v]` over exactly the videos with a caching variable
for that cache; consequently, for any binary caching values satisfying
the model's constraints, the total size of the videos the extractor
places in any cache is at most `X`. -/
theorem cache_capacity_respected (d : Dataset) (σc σs : Int × Int → Int)
    (hbin : ∀ k ∈ buildCachedKeys d, σc k = 0 ∨ σc k = 1)
    (hfeas : feasibleB d σc σs = true) :
    (∀ c : Int, 0 ≤ c → c < d.C → Constr.cap c ∈ modelConstrs d) ∧
    (∀ c vids, (c, vids) ∈ generate_output d σc →
      (vids.map fun v => size_at d v).sum ≤ d.X) := by
  refine ⟨fun c h0 h1 => cap_mem_modelConstrs h0 h1, ?_⟩
  intro c vids hmem
  obtain ⟨⟨h0, h1⟩, rfl, hne⟩ := mem_generate_output.mp hmem
  have hcap := List.all_eq_true.mp hfeas _ (cap_mem_modelConstrs h0 h1)
  have hle : capSum d σc c ≤ d.X := by
    simpa [constrHolds] using hcap
  rw [stored_sum_eq_capSum d σc c hbin]
  exact hle

/-- Witness for C1 on the spec's worked scenario with the all-ones
solution. -/
theorem cache_capacity_respected_witness :
    Constr.cap 0 ∈ modelConstrs ex1 ∧
    (([0] : List Int).map fun v => size_at ex1 v).sum ≤ ex1.X :=
  ⟨(cache_capacity_respected ex1 (fun _ => 1) (fun _ => 1)
      (by decide) (by decide)).1 0 (by decide) (by decide),
   (cache_capacity_respected ex1 (fun _ => 1) (fun _ => 1)
      (by decide) (by decide)).2 0 [0] (by decide)⟩

/-- C2 counterexample: in `ex2` the single video (size 20) exceeds the
capacity 10, yet a served variable for (request 0, cache 0) is created
while no caching variable `cached[0, 0]` exists — so a served variable
does not only exist when the corresponding caching variable exists. -/
theorem served_without_cached_counterexample :
    (0, 0) ∈ servedKeys ex2 ∧
    ((0 : Int), (0 : Int)) ∉ buildCachedKeys ex2 ∧
    (ex2.requests.getD 0 ⟨0, 0, 0, 0⟩).video = 0 := by
  decide

/-- C2 (amended): a served variable for request `req` and cache `c`
exists iff `c` is connected to the request's endpoint with latency
strictly below `Ld` — independently of whether `cached[c, video(req)]`
exists; when that caching variable does not exist, the model instead
contains the constraint `served[req,c] = 0`. -/
theorem served_variable_existence (d : Dataset) (req : Request)
    (hreq : req ∈ d.requests) (c : Int) :
    ((req.id, c) ∈ servedKeysFor d req ↔
      ∃ lat, (c, lat) ∈ (reqEndpoint d req).connections ∧
        lat < (reqEndpoint d req).Ld) ∧
    (∀ lat, (c, lat) ∈ (reqEndpoint d req).connections →
      lat < (reqEndpoint d req).Ld →
      (c, req.video) ∉ buildCachedKeys d →
      Constr.zero (req.id, c) ∈ modelConstrs d) := by
  constructor
  · rw [mem_servedKeysFor]
    simp
  · intro lat hm hl hnc
    exact zero_constr_mem hreq hm hl hnc

/-- Witness for C2's amended statement, instantiated on `ex2`: the
served variable exists and the `served = 0` constraint is in the model. -/
theorem served_variable_existence_witness :
    (((0 : Int), (0 : Int)) ∈ servedKeysFor ex2 ⟨0, 0, 0, 5⟩ ↔
      ∃ lat, ((0 : Int), lat) ∈ (reqEndpoint ex2 ⟨0, 0, 0, 5⟩).connections ∧
        lat < (reqEndpoint ex2 ⟨0, 0, 0, 5⟩).Ld) ∧
    Constr.zero (0, 0) ∈ modelConstrs ex2 :=
  ⟨(served_variable_existence ex2 ⟨0, 0, 0, 5⟩ (by decide) 0).1,
   (served_variable_existence ex2 ⟨0, 0, 0, 5⟩ (by decide) 0).2 1
     (by decide) (by decide) (by decide)⟩

/-- C3: for every served variable the loop creates (an endpoint
connection with latency strictly below `Ld`), the model contains the
inequality `served ≤ cached` when the caching variable exists, and the
equality `served = 0` when it does not. -/
theorem linkage_constraint_present (d : Dataset) (req : Request)
    (hreq : req ∈ d.requests) (c lat : Int)
    (hconn : (c, lat) ∈ (reqEndpoint d req).connections)
    (hlat : lat < (reqEndpoint d req).Ld) :
    ((c, req.video) ∈ buildCachedKeys d →
      Constr.link (req.id, c) (c, req.video) ∈ modelConstrs d) ∧
    ((c, req.video) ∉ buildCachedKeys d →
      Constr.zero (req.id, c) ∈ modelConstrs d) :=
  ⟨fun hc => link_constr_mem hreq hconn hlat hc,
   fun hnc => zero_constr_mem hreq hconn hlat hnc⟩

/-- Witness for C3 on the spec's worked scenario: the caching variable
exists, and the linkage inequality is in the model. -/
theorem linkage_constraint_present_witness :
    Constr.link (0, 0) (0, 0) ∈ modelConstrs ex1 :=
  (linkage_constraint_present ex1 ⟨0, 0, 0, 1⟩ (by decide) 0 10
    (by decide) (by decide)).1 (by decide)

/-! ### Objective coefficients -/

/-- With distinct request ids, filtering the objective terms by a key
keeps only the terms created for the unique request with that id. -/
theorem filter_objTerms_flatMap (d : Dataset) (rid c : Int) :
    ∀ rs : List Request, (rs.map fun q => q.id).Nodup →
      ∀ req ∈ rs, req.id = rid →
      ((rs.flatMap fun q => objTermsFor d q).filter
          fun t => decide (t.1 = (rid, c))) =
        (objTermsFor d req).filter fun t => decide (t.1 = (rid, c))
  | [], _, req, h, _ => absurd h (List.not_mem_nil req)
  | q :: rs, hnd, req, hreq, hrid => by
    rw [List.map_cons, List.nodup_cons] at hnd
    rw [List.flatMap_cons, List.filter_append]
    rcases List.mem_cons.mp hreq with rfl | hmem
    · have hnil : ((rs.flatMap fun q' => objTermsFor d q').filter
          fun t => decide (t.1 = (rid, c))) = [] := by
        refine List.filter_eq_nil_iff.mpr fun t ht hdec => ?_
        obtain ⟨q', hq', ht'⟩ := List.mem_flatMap.mp ht
        have hkey : t.1.1 = q'.id := objTermsFor_key ht'
        have ht1 : t.1 = (rid, c) := of_decide_eq_true hdec
        refine hnd.1 (List.mem_map.mpr ⟨q', hq', ?_⟩)
        exact (hkey.symm.trans (congrArg Prod.fst ht1)).trans hrid.symm
      rw [hnil, List.append_nil]
    · have hqid : q.id ≠ rid := by
        intro h
        exact hnd.1 (List.mem_map.mpr ⟨req, hmem, hrid.trans h.symm⟩)
      have hnil : ((objTermsFor d q).filter
          fun t => decide (t.1 = (rid, c))) = [] := by
        refine List.filter_eq_nil_iff.mpr fun t ht hdec => ?_
        have hkey : t.1.1 = q.id := objTermsFor_key ht
        have ht1 : t.1 = (rid, c) := of_decide_eq_true hdec
        exact hqid (hkey.symm.trans (congrArg Prod.fst ht1))
      rw [hnil, List.nil_append]
      exact filter_objTerms_flatMap d rid c rs hnd.2 req hmem hrid

/-- Within one request's terms, with distinct connection keys, the term
for cache `c` is unique and carries `saving` for its latency. -/
theorem filter_objTermsFor_eq (d : Dataset) (req : Request) (c lat : Int)
    (hconn : ((reqEndpoint d req).connections.map Prod.fst).Nodup)
    (hc : (c, lat) ∈ (reqEndpoint d req).connections)
    (hlat : lat < (reqEndpoint d req).Ld) :
    ((objTermsFor d req).filter fun t => decide (t.1 = (req.id, c))) =
      [((req.id, c), saving d req lat)] := by
  unfold objTermsFor
  rw [List.filter_map]
  have hcong : ∀ p ∈ eligibleConns d req,
      ((fun t : (Int × Int) × Int => decide (t.1 = (req.id, c))) ∘
        fun p : Int × Int => ((req.id, p.1), saving d req p.2)) p =
      (fun p : Int × Int => decide (p.1 = c)) p := by
    intro p hp
    exact decide_eq_decide.mpr (by simp)
  rw [List.filter_congr hcong]
  unfold eligibleConns
  rw [List.filter_filter]
  rw [filter_key_and_singleton (reqEndpoint d req).connections c lat _
    hconn hc (decide_eq_true hlat)]
  rfl

/-- With distinct request ids and distinct connection keys, the served
dict holds a key `(req.id, c)` for a connected cache `c` exactly when the
connection's latency beats `Ld`. -/
theorem served_key_unique (d : Dataset)
    (hid : (d.requests.map fun q => q.id).Nodup)
    (req : Request) (hreq : req ∈ d.requests)
    (hconn : ((reqEndpoint d req).connections.map Prod.fst).Nodup)
    (c lat : Int) (hc : (c, lat) ∈ (reqEndpoint d req).connections) :
    (req.id, c) ∈ servedKeys d ↔ lat < (reqEndpoint d req).Ld := by
  constructor
  · intro h
    obtain ⟨req', hreq', hk⟩ := List.mem_flatMap.mp h
    have h1 : req.id = req'.id := (mem_servedKeysFor.mp hk).1
    have hr : req' = req := List.inj_on_of_nodup_map hid hreq' hreq h1.symm
    subst hr
    obtain ⟨-, lat', hm', hl'⟩ := mem_servedKeysFor.mp hk
    have : lat' = lat := assoc_value_unique hconn hm' hc
    exact this ▸ hl'
  · intro hl
    exact List.mem_flatMap.mpr ⟨req, hreq,
      mem_servedKeysFor.mpr ⟨rfl, lat, hc, hl⟩⟩

/-- C4: for every request and connected cache, a latency strictly below
`Ld` yields a served variable whose total objective coefficient is
exactly `(Ld - latency) * count`, while a latency at or above `Ld` yields
no served variable at all.  Distinctness of request ids and of an
endpoint's connection keys holds for every dataset `read_input` builds
(ids are consecutive, connections form a dict). -/
theorem served_saving_coefficient (d : Dataset)
    (hid : (d.requests.map fun q => q.id).Nodup)
    (req : Request) (hreq : req ∈ d.requests)
    (hconn : ((reqEndpoint d req).connections.map Prod.fst).Nodup)
    (c lat : Int) (hc : (c, lat) ∈ (reqEndpoint d req).connections) :
    (lat < (reqEndpoint d req).Ld →
      (req.id, c) ∈ servedKeys d ∧
      objCoeff d (req.id, c) = ((reqEndpoint d req).Ld - lat) * req.count) ∧
    ((reqEndpoint d req).Ld ≤ lat → (req.id, c) ∉ servedKeys d) := by
  constructor
  · intro hlat
    refine ⟨(served_key_unique d hid req hreq hconn c lat hc).mpr hlat, ?_⟩
    unfold objCoeff objTerms
    rw [filter_objTerms_flatMap d req.id c d.requests hid req hreq rfl,
      filter_objTermsFor_eq d req c lat hconn hc hlat]
    simp [saving]
  · intro hge hk
    have := (served_key_unique d hid req hreq hconn c lat hc).mp hk
    omega

/-- Witness for C4 on the spec's worked scenario: latency 10 beats
`Ld = 100`, the served variable exists with coefficient 90. -/
theorem served_saving_coefficient_witness :
    ((0 : Int), (0 : Int)) ∈ servedKeys ex1 ∧
    objCoeff ex1 (0, 0) =
      ((reqEndpoint ex1 ⟨0, 0, 0, 1⟩).Ld - 10) * (1 : Int) :=
  (served_saving_coefficient ex1 (by decide) ⟨0, 0, 0, 1⟩ (by decide)
    (by decide) 0 10 (by decide)).1 (by decide)

/-! ### Single-assignment constraints -/

/-- With distinct request ids and connection keys, the variable list the
assignment loop collects for a request is exactly the list of served
variables created for it. -/
theorem assignVarsFor_eq (d : Dataset)
    (hid : (d.requests.map fun q => q.id).Nodup)
    (req : Request) (hreq : req ∈ d.requests)
    (hconn : ((reqEndpoint d req).connections.map Prod.fst).Nodup) :
    assignVarsFor d req = servedKeysFor d req := by
  have h1 : servedKeysFor d req =
      (reqEndpoint d req).connections.filterMap fun p =>
        if decide (p.2 < (reqEndpoint d req).Ld) then some (req.id, p.1)
        else none := by
    unfold servedKeysFor eligibleConns
    exact map_filter_eq_filterMap _ _ _
  rw [h1]
  unfold assignVarsFor
  apply List.filterMap_congr
  intro p hp
  have hiff := served_key_unique d hid req hreq hconn p.1 p.2 hp
  by_cases hl : p.2 < (reqEndpoint d req).Ld
  · rw [if_pos (hiff.mpr hl), if_pos (decide_eq_true hl)]
  · rw [if_neg (fun h => hl (hiff.mp h)), if_neg (by simpa using hl)]

/-- C5: a request with at least one served variable receives a constraint
bounding the sum of all its served variables by 1; a request with none is
skipped — no assignment constraint with its id exists in the model. -/
theorem single_assignment_constraint (d : Dataset)
    (hid : (d.requests.map fun q => q.id).Nodup)
    (req : Request) (hreq : req ∈ d.requests)
    (hconn : ((reqEndpoint d req).connections.map Prod.fst).Nodup) :
    (servedKeysFor d req ≠ [] →
      Constr.assign req.id (servedKeysFor d req) ∈ modelConstrs d) ∧
    (servedKeysFor d req = [] →
      ∀ ks, Constr.assign req.id ks ∉ modelConstrs d) ∧
    (∀ σc σs, feasibleB d σc σs = true → servedKeysFor d req ≠ [] →
      ((servedKeysFor d req).map σs).sum ≤ 1) := by
  have hEq := assignVarsFor_eq d hid req hreq hconn
  have hmem0 : servedKeysFor d req ≠ [] →
      Constr.assign req.id (servedKeysFor d req) ∈ modelConstrs d := by
    intro hne
    have hmem : Constr.assign req.id (assignVarsFor d req) ∈ assignConstrs d := by
      refine List.mem_filterMap.mpr ⟨req, hreq, ?_⟩
      rw [if_neg (by simp [List.isEmpty_iff, hEq, hne])]
    rw [hEq] at hmem
    simp [modelConstrs, List.mem_append, hmem]
  refine ⟨hmem0, ?_, ?_⟩
  · intro hnil ks hmem
    simp only [modelConstrs, List.mem_append] at hmem
    rcases hmem with (hmem | hmem) | hmem
    · obtain ⟨q, hq, hco⟩ := List.mem_flatMap.mp hmem
      obtain ⟨p, hp, hco'⟩ := List.mem_map.mp hco
      by_cases hcc : (p.1, q.video) ∈ buildCachedKeys d
      · rw [if_pos hcc] at hco'
        exact absurd hco' (by simp)
      · rw [if_neg hcc] at hco'
        exact absurd hco' (by simp)
    · obtain ⟨c, hc, hco⟩ := List.mem_map.mp hmem
      exact absurd hco (by simp)
    · obtain ⟨q, hq, hco⟩ := List.mem_filterMap.mp hmem
      by_cases he : (assignVarsFor d q).isEmpty
      · rw [if_pos he] at hco
        exact absurd hco (by simp)
      · rw [if_neg he, Option.some.injEq] at hco
        injection hco with h1 h2
        have hq_eq : q = req := List.inj_on_of_nodup_map hid hq hreq h1
        subst hq_eq
        apply he
        rw [hEq, hnil]
        rfl
  · intro σc σs hfeas hne
    have h := List.all_eq_true.mp hfeas _ (hmem0 hne)
    simpa [constrHolds] using h

/-- Witness for C5 on the spec's worked scenario: the assignment
constraint is present and bounds the all-ones solution by 1. -/
theorem single_assignment_constraint_witness :
    Constr.assign 0 (servedKeysFor ex1 ⟨0, 0, 0, 1⟩) ∈ modelConstrs ex1 ∧
    ((servedKeysFor ex1 ⟨0, 0, 0, 1⟩).map fun _ => (1 : Int)).sum ≤ 1 :=
  ⟨(single_assignment_constraint ex1 (by decide) ⟨0, 0, 0, 1⟩ (by decide)
      (by decide)).1 (by decide),
   (single_assignment_constraint ex1 (by decide) ⟨0, 0, 0, 1⟩ (by decide)
      (by decide)).2.2 (fun _ => 1) (fun _ => 1) (by decide) (by decide)⟩

/-- C6 counterexample: in `ex6` the request has demand count 0, so the
served variable `(0,0)` is created with objective coefficient 0 — not
strictly positive.  (`count = 0` is well-formed: the spec calls the
demand count a non-negative integer weight.) -/
theorem zero_saving_coefficient_counterexample :
    (0, 0) ∈ servedKeys ex6 ∧
    (((0 : Int), (0 : Int)), (0 : Int)) ∈ objTerms ex6 ∧
    objCoeff ex6 (0, 0) = 0 ∧
    ¬ 0 < objCoeff ex6 (0, 0) := by
  decide

/-- C6 (amended): every objective term is `(Ld - latency) * count` with
`Ld - latency > 0`, so every created served variable has a non-negative
saving coefficient whenever all demand counts are non-negative, and a
strictly positive one whenever all demand counts are strictly positive. -/
theorem saving_coefficient_sign (d : Dataset) :
    ((∀ req ∈ d.requests, 0 ≤ req.count) → ∀ t ∈ objTerms d, 0 ≤ t.2) ∧
    ((∀ req ∈ d.requests, 0 < req.count) → ∀ t ∈ objTerms d, 0 < t.2) := by
  constructor
  · intro hcnt t ht
    obtain ⟨req, hreq, ht'⟩ := List.mem_flatMap.mp ht
    obtain ⟨p, hp, rfl⟩ := List.mem_map.mp ht'
    have hlt : p.2 < (reqEndpoint d req).Ld :=
      of_decide_eq_true (List.mem_filter.mp hp).2
    show 0 ≤ ((reqEndpoint d req).Ld - p.2) * req.count
    exact mul_nonneg (by omega) (hcnt req hreq)
  · intro hcnt t ht
    obtain ⟨req, hreq, ht'⟩ := List.mem_flatMap.mp ht
    obtain ⟨p, hp, rfl⟩ := List.mem_map.mp ht'
    have hlt : p.2 < (reqEndpoint d req).Ld :=
      of_decide_eq_true (List.mem_filter.mp hp).2
    show 0 < ((reqEndpoint d req).Ld - p.2) * req.count
    exact mul_pos (by omega) (hcnt req hreq)

/-- Witness for C6's amended statement on the worked scenario (demand
counts strictly positive, so both bounds instantiate). -/
theorem saving_coefficient_sign_witness :
    (∀ t ∈ objTerms ex1, 0 ≤ t.2) ∧ (∀ t ∈ objTerms ex1, 0 < t.2) :=
  ⟨(saving_coefficient_sign ex1).1 (by decide),
   (saving_coefficient_sign ex1).2 (by decide)⟩

/-! ### Extractor output shape -/

theorem output_entry_fst {d : Dataset} {σc : Int × Int → Int}
    {entry : Int × List Int} {c : Int}
    (h : (if storedVideos d σc c = [] then none
      else some (c, storedVideos d σc c)) = some entry) : entry.1 = c := by
  by_cases he : storedVideos d σc c = []
  · rw [if_pos he] at h
    cases h
  · rw [if_neg he, Option.some.injEq] at h
    rw [← h]

/-- Each cache index appears at most once in the output. -/
theorem nodup_output_fst (d : Dataset) (σc : Int × Int → Int) :
    ((generate_output d σc).map Prod.fst).Nodup := by
  unfold generate_output
  have H : ∀ l : List Int, l.Nodup →
      ((l.filterMap fun c => if storedVideos d σc c = [] then none
        else some (c, storedVideos d σc c)).map Prod.fst).Nodup := by
    intro l
    induction l with
    | nil =>
      intro
      simp
    | cons a l ih =>
      intro hnd
      rw [List.nodup_cons] at hnd
      by_cases he : storedVideos d σc a = []
      · rw [List.filterMap_cons_none (by rw [if_pos he])]
        exact ih hnd.2
      · rw [List.filterMap_cons_some (by rw [if_neg he])]
        rw [List.map_cons, List.nodup_cons]
        refine ⟨?_, ih hnd.2⟩
        intro hmem
        obtain ⟨entry, hent, hfst⟩ := List.mem_map.mp hmem
        obtain ⟨c', hc', hfc⟩ := List.mem_filterMap.mp hent
        have h1 : entry.1 = c' := output_entry_fst hfc
        have hfst' : entry.1 = a := by simpa using hfst
        refine hnd.1 ?_
        rw [hfst'.symm.trans h1]
        exact hc'
  exact H _ (nodup_intRange d.C)

/-- The number of emitted entries equals the number of caches in
`range(C)` with at least one stored video. -/
theorem generate_output_length (d : Dataset) (σc : Int × Int → Int) :
    (generate_output d σc).length =
      (intRange d.C).countP fun c => decide (storedVideos d σc c ≠ []) := by
  unfold generate_output
  rw [length_filterMap_eq_countP]
  rw [List.countP_eq_length_filter, List.countP_eq_length_filter]
  congr 1
  apply List.filter_congr
  intro c hc
  by_cases he : storedVideos d σc c = []
  · simp [he]
  · simp [he]

/-- C7: the extractor emits one entry per cache with at least one stored
video — a video is stored iff its caching variable exists and its solved
value exceeds one half — with videos listed in ascending index order;
empty caches are omitted, each cache appears at most once, and the first
output line is the number of non-empty caches. -/
theorem placement_extraction_correct (d : Dataset) (σc : Int × Int → Int) :
    (∀ c vids, (c, vids) ∈ generate_output d σc →
      vids ≠ [] ∧ List.Pairwise (fun a b => a < b) vids ∧
      ∀ v, v ∈ vids ↔ ((c, v) ∈ buildCachedKeys d ∧ 1 < 2 * σc (c, v))) ∧
    ((generate_output d σc).map Prod.fst).Nodup ∧
    (∀ c, 0 ≤ c → c < d.C →
      ((∃ vids, (c, vids) ∈ generate_output d σc) ↔
        ∃ v, (c, v) ∈ buildCachedKeys d ∧ 1 < 2 * σc (c, v))) ∧
    (videosOutLines d σc).head? =
      some [(((intRange d.C).countP
        fun c => decide (storedVideos d σc c ≠ [])) : Int)] := by
  refine ⟨?_, nodup_output_fst d σc, ?_, ?_⟩
  · intro c vids hmem
    obtain ⟨⟨h0, h1⟩, rfl, hne⟩ := mem_generate_output.mp hmem
    refine ⟨hne, ?_, fun v => mem_storedVideos⟩
    exact (pairwise_lt_intRange d.V).filter _
  · intro c h0 h1
    constructor
    · rintro ⟨vids, hmem⟩
      obtain ⟨-, rfl, hne⟩ := mem_generate_output.mp hmem
      obtain ⟨v, hv⟩ := List.exists_mem_of_ne_nil _ hne
      exact ⟨v, mem_storedVideos.mp hv⟩
    · rintro ⟨v, hv⟩
      have hvmem : v ∈ storedVideos d σc c := mem_storedVideos.mpr hv
      exact ⟨storedVideos d σc c,
        mem_generate_output.mpr ⟨⟨h0, h1⟩, rfl, List.ne_nil_of_mem hvmem⟩⟩
  · unfold videosOutLines
    rw [List.head?_cons, generate_output_length]

/-- Witness for C7 on the worked scenario with the all-ones solution. -/
theorem placement_extraction_correct_witness :
    (∀ c vids, (c, vids) ∈ generate_output ex1 (fun _ => 1) →
      vids ≠ [] ∧ List.Pairwise (fun a b => a < b) vids ∧
      ∀ v, v ∈ vids ↔ ((c, v) ∈ buildCachedKeys ex1 ∧
        1 < 2 * (fun _ => (1 : Int)) (c, v))) ∧
    ((generate_output ex1 (fun _ => 1)).map Prod.fst).Nodup ∧
    (∀ c, 0 ≤ c → c < ex1.C →
      ((∃ vids, (c, vids) ∈ generate_output ex1 (fun _ => 1)) ↔
        ∃ v, (c, v) ∈ buildCachedKeys ex1 ∧
          1 < 2 * (fun _ => (1 : Int)) (c, v))) ∧
    (videosOutLines ex1 (fun _ => 1)).head? =
      some [(((intRange ex1.C).countP
        fun c => decide (storedVideos ex1 (fun _ => 1) c ≠ [])) : Int)] :=
  placement_extraction_correct ex1 (fun _ => 1)

/-- C8 counterexample: `ex8lines` declares `C = 1` caches but connects
its endpoint to cache 5; `read_input` succeeds anyway — it does not fail
on out-of-range cache references, and no `MalformedInputError` exists in
the program. -/
theorem out_of_range_reference_parses_counterexample :
    read_input ex8lines = Except.ok ex8data ∧
    ex8data.C = 1 ∧
    ((5 : Int), (1 : Int)) ∈ (ex8data.endpoints.getD 0 default).connections :=
  ⟨rfl, rfl, by decide⟩

/-- C8 (amended): when the declared endpoint count requires data lines
that are missing, parsing aborts with a generic runtime error (Python
`IndexError`), not a dedicated `MalformedInputError`; surplus trailing
lines are ignored, and out-of-range cache references are accepted without
any error. -/
theorem read_input_no_validation (v e r c x : Int) (sizes : List Int)
    (he : 0 < e.toNat) :
    (∃ msg, read_input [[v, e, r, c, x], sizes] = Except.error msg) ∧
    read_input ex8lines = Except.ok ex8data ∧
    read_input (ex8lines ++ [[42]]) = Except.ok ex8data := by
  refine ⟨?_, rfl, rfl⟩
  obtain ⟨k, hk⟩ : ∃ k, e.toNat = k + 1 := ⟨e.toNat - 1, by omega⟩
  have hre : readEndpoints (k + 1) 0 [[v, e, r, c, x], sizes] 2 =
      Except.error "IndexError: list index out of range" := rfl
  have hmain : read_input [[v, e, r, c, x], sizes] =
      (readEndpoints e.toNat 0 [[v, e, r, c, x], sizes] 2).bind
        (fun p => (readRequests r.toNat 0 [[v, e, r, c, x], sizes] p.2).bind
          (fun q => Except.ok ⟨v, e, r, c, x, sizes, p.1, q.1⟩)) := rfl
  rw [hk, hre] at hmain
  exact ⟨"IndexError: list index out of range", hmain⟩

/-- Witness for C8's amended statement: one endpoint declared, no
endpoint lines present. -/
theorem read_input_no_validation_witness :
    (∃ msg, read_input [[1, 1, 1, 1, 10], [5]] = Except.error msg) ∧
    read_input ex8lines = Except.ok ex8data ∧
    read_input (ex8lines ++ [[42]]) = Except.ok ex8data :=
  read_input_no_validation 1 1 1 1 10 [5] (by decide)

/-- C9: the `__main__` block exits with code 1 before reading anything
when the argument is missing or the file does not exist; otherwise it
exits 0 whether or not a solution was found, and writes `videos.out`
exactly when the solver reports at least one solution. -/
theorem cli_exit_behaviour (argc : Nat) (fileExists : Bool) (solCount : Nat) :
    (argc < 2 → mainRun argc fileExists solCount = ⟨1, false, false⟩) ∧
    (fileExists = false → mainRun argc fileExists solCount = ⟨1, false, false⟩) ∧
    (2 ≤ argc → fileExists = true →
      (mainRun argc fileExists solCount).exitCode = 0 ∧
      (mainRun argc fileExists solCount).readAttempted = true ∧
      ((mainRun argc fileExists solCount).wroteVideosOut = true ↔
        0 < solCount)) := by
  unfold mainRun
  refine ⟨fun h => by rw [if_pos h], ?_, ?_⟩
  · intro h
    by_cases h2 : argc < 2
    · rw [if_pos h2]
    · rw [if_neg h2, if_pos h]
  · intro h2 ht
    rw [if_neg (by omega), if_neg (by simp [ht])]
    exact ⟨rfl, rfl, by simp⟩

/-- Witness for C9 at concrete argument counts, file-existence flags and
solution counts. -/
theorem cli_exit_behaviour_witness :
    mainRun 1 true 5 = ⟨1, false, false⟩ ∧
    mainRun 2 false 5 = ⟨1, false, false⟩ ∧
    ((mainRun 2 true 0).exitCode = 0 ∧
      (mainRun 2 true 0).readAttempted = true ∧
      ((mainRun 2 true 0).wroteVideosOut = true ↔ 0 < 0)) :=
  ⟨(cli_exit_behaviour 1 true 5).1 (by decide),
   (cli_exit_behaviour 2 false 5).2.1 rfl,
   (cli_exit_behaviour 2 true 0).2.2 (by decide) rfl⟩

/-- C10: a connection to a cache id at or beyond `C` is harmless: no
caching variable ever exists for such a cache, any served variable
created for it is constrained to 0, the output only names caches in
`0..C-1`, and parsing such an input succeeds (shown on `ex10lines`). -/
theorem out_of_range_cache_ineffective (d : Dataset) :
    (∀ c v : Int, d.C ≤ c → (c, v) ∉ buildCachedKeys d) ∧
    (∀ req ∈ d.requests, ∀ c lat : Int, d.C ≤ c →
      (c, lat) ∈ (reqEndpoint d req).connections →
      lat < (reqEndpoint d req).Ld →
      (req.id, c) ∈ servedKeys d ∧
        Constr.zero (req.id, c) ∈ modelConstrs d) ∧
    (∀ σc : Int × Int → Int, ∀ c vids,
      (c, vids) ∈ generate_output d σc → 0 ≤ c ∧ c < d.C) ∧
    (read_input ex10lines = Except.ok ex10data ∧
      ex10data.C = 1 ∧
      ((7 : Int), (1 : Int)) ∈ (ex10data.endpoints.getD 0 default).connections) := by
  refine ⟨?_, ?_, ?_, rfl, rfl, by decide⟩
  · intro c v hc hmem
    have := (mem_buildCachedKeys.mp hmem).1.2
    omega
  · intro req hreq c lat hc hconn hlat
    have hnc : (c, req.video) ∉ buildCachedKeys d := by
      intro hmem
      have := (mem_buildCachedKeys.mp hmem).1.2
      omega
    exact ⟨List.mem_flatMap.mpr ⟨req, hreq,
        mem_servedKeysFor.mpr ⟨rfl, lat, hconn, hlat⟩⟩,
      zero_constr_mem hreq hconn hlat hnc⟩
  · intro σc c vids hmem
    exact (mem_generate_output.mp hmem).1

/-- Witness for C10 on `ex10data`: cache 7 is out of range, gets no
caching variable, its served variable is zero-constrained, and the
output stays within `0..C-1`. -/
theorem out_of_range_cache_ineffective_witness :
    (((7 : Int), (0 : Int)) ∉ buildCachedKeys ex10data) ∧
    ((0, 7) ∈ servedKeys ex10data ∧
      Constr.zero (0, 7) ∈ modelConstrs ex10data) ∧
    (∀ c vids, (c, vids) ∈ generate_output ex10data (fun _ => 1) →
      0 ≤ c ∧ c < ex10data.C) :=
  ⟨(out_of_range_cache_ineffective ex10data).1 7 0 (by decide),
   (out_of_range_cache_ineffective ex10data).2.1 ⟨0, 0, 0, 3⟩ (by decide)
     7 1 (by decide) (by decide) (by decide),
   fun c vids h =>
     (out_of_range_cache_ineffective ex10data).2.2.1 (fun _ => 1) c vids h⟩
